import Mathlib

/-!
# Verification of the subscription migrator's transformation pipeline

Shallow embedding of `src/migrate.rs` (crate `subscription_migrator`):
the XML event-stream parser, the application merger, and the YAML
projection, together with proofs about them.

Modelling conventions:
* Rust `String` is `String`, `Vec<T>` is `List T`, `i32` is `Int`
  (the only arithmetic performed on it is parsing, modelled with an
  explicit 32-bit range check).
* A Rust `HashSet<String>` is modelled by its insertion sequence
  deduplicated in first-occurrence order (`hsOfList`).  The set's
  *contents* are exactly faithful; its *iteration order* in Rust is
  unspecified (each set instance draws a fresh random hash state), so
  wherever iteration order matters the projection takes the order as an
  explicit parameter ranging over permutations (`fromIter`), and the
  first-occurrence order is the canonical instantiation.
* `Result`/panic: functions that can `return Err(..)` or `panic!`
  (via `.unwrap()`) return `RunResult`, distinguishing the returned
  error from the panic.
-/

/-- `struct XmlSubscription` of `migrate.rs`: one `<subscription>` element,
with one `env` entry per `environment` attribute occurrence. -/
structure XmlSubscription where
  api_name : String
  api_version : String
  env : List String
deriving Repr, DecidableEq, Inhabited

/-- `struct XmlApplication` of `migrate.rs` (fields in source order).
`Default` in Rust gives empty strings, empty `Vec`, and `0`. -/
structure XmlApplication where
  name : String
  token_type : String
  apis : List XmlSubscription
  token_validity : Int
deriving Repr, DecidableEq, Inhabited

/-- `struct YamlApi` of `migrate.rs`. -/
structure YamlApi where
  name : String
  version : String
deriving Repr, DecidableEq

/-- `struct YamlEnvironmentName` of `migrate.rs`. -/
structure YamlEnvironmentName where
  name : String
deriving Repr, DecidableEq

/-- `struct YamlEnvironment` of `migrate.rs`. -/
structure YamlEnvironment where
  control_plane_url : String
  environments : List YamlEnvironmentName
deriving Repr, DecidableEq

/-- `struct YamlApplication` of `migrate.rs`. -/
structure YamlApplication where
  name : String
  description : String
  apis : List YamlApi
deriving Repr, DecidableEq

/-- `struct YamlSubscription` of `migrate.rs`. -/
structure YamlSubscription where
  application : YamlApplication
deriving Repr, DecidableEq

/-- `struct YamlApiSubscription` of `migrate.rs`: the output document. -/
structure YamlApiSubscription where
  environments : List YamlEnvironment
  subscription : YamlSubscription
deriving Repr, DecidableEq

/-- `const PROD_PLANE_URL` of `migrate.rs`. -/
def PROD_PLANE_URL : String := "https://prod.control-plane.com"

/-- `const NON_PROD_PLANE_URL` of `migrate.rs`. -/
def NON_PROD_PLANE_URL : String := "https://non-prod.control-plane.com"

/-- One insertion into the model of a Rust `HashSet<String>`: keeps the
element set, recording the first-occurrence order. -/
def hsInsert (l : List String) (x : String) : List String :=
  if x ∈ l then l else l ++ [x]

/-- Model of `collect::<HashSet<String>>()` applied to an insertion
sequence: the distinct elements, listed in first-occurrence order. -/
def hsOfList (xs : List String) : List String :=
  xs.foldl hsInsert []

/-- All `environment` attribute entries of all of an application's
subscriptions, flattened in order (used to state set-level claims). -/
def allEnvEntries (app : XmlApplication) : List String :=
  (app.apis.map (·.env)).flatten

/-- `impl From<XmlApplication> for YamlApiSubscription` of `migrate.rs`
(lines 69-136), with the iteration order of the two `HashSet`s taken as
explicit parameters `iterNP`/`iterP` (applied to the canonical
first-occurrence listing; a faithful instantiation permutes its
argument).  The source:
* `non_prod_envs`: all env entries of every subscription having at least
  one entry `!= "prod"` (note: *all* entries of such a subscription,
  including `"prod"` itself);
* `prod_envs`: all env entries of every subscription having at least one
  entry `== "prod"`;
* pushes the non-production block, then the production block, each only
  if its set is non-empty;
* `apis`: one `YamlApi` per subscription entry, in order, no dedup. -/
def fromIter (iterNP iterP : List String → List String)
    (app : XmlApplication) : YamlApiSubscription :=
  let non_prod_envs : List String :=
    hsOfList ((app.apis.filter (fun sub => sub.env.any (fun env => env != "prod"))).map (·.env)).flatten
  let prod_envs : List String :=
    hsOfList ((app.apis.filter (fun sub => sub.env.any (fun env => env == "prod"))).map (·.env)).flatten
  let yaml_prod_names : List YamlEnvironmentName :=
    (iterP prod_envs).map (fun env => ⟨env⟩)
  let yaml_non_prod_names : List YamlEnvironmentName :=
    (iterNP non_prod_envs).map (fun env => ⟨env⟩)
  let yaml_env_non_prod : YamlEnvironment := ⟨NON_PROD_PLANE_URL, yaml_non_prod_names⟩
  let yaml_env_prod : YamlEnvironment := ⟨PROD_PLANE_URL, yaml_prod_names⟩
  let environments : List YamlEnvironment :=
    (if non_prod_envs.isEmpty then [] else [yaml_env_non_prod])
      ++ (if prod_envs.isEmpty then [] else [yaml_env_prod])
  let apis : List YamlApi :=
    app.apis.map (fun sub => ⟨sub.api_name, sub.api_version⟩)
  let description := app.name ++ "-subscription"
  ⟨environments, ⟨⟨app.name, description, apis⟩⟩⟩

/-- The single-flow projection `XmlApplication → YamlApiSubscription`
(`app.into()` in `main.rs`), at the canonical iteration order. -/
def yamlFromXmlApplication (app : XmlApplication) : YamlApiSubscription :=
  fromIter id id app

/-- Model of Rust's `str::parse::<i32>`: an optional leading sign
followed by one or more ASCII digits, rejected on overflow of the
32-bit range; `none` models `Err(ParseIntError)`. -/
def parseI32 (s : String) : Option Int :=
  let core : Int → List Char → Option Int := fun sign ds =>
    if ds.isEmpty then none
    else if ds.all (·.isDigit) then
      let v : Int := sign * ((ds.foldl (fun acc c => acc * 10 + (c.toNat - 48)) 0 : Nat) : Int)
      if -(2 ^ 31) ≤ v ∧ v < 2 ^ 31 then some v else none
    else none
  match s.data with
  | '+' :: rest => core 1 rest
  | '-' :: rest => core (-1) rest
  | l => core 1 l

/-- `fn parse_application` of `migrate.rs` (lines 174-194).  Attributes
are (local-name, value) pairs in document order; later occurrences of
the same attribute overwrite earlier ones, unknown names are ignored.
The source calls `.unwrap()` on the integer parse of `tokenValidity`,
which *panics* on a non-integer value: modelled by `none`. -/
def parse_application (attributes : List (String × String)) : Option XmlApplication :=
  let rec go (name token_type : String) (token_validity : Int) :
      List (String × String) → Option XmlApplication
    | [] => some ⟨name, token_type, [], token_validity⟩
    | attr :: rest =>
      if attr.1 = "name" then go attr.2 token_type token_validity rest
      else if attr.1 = "tokenType" then go name attr.2 token_validity rest
      else if attr.1 = "tokenValidity" then
        match parseI32 attr.2 with
        | some v => go name token_type v rest
        | none => none
      else go name token_type token_validity rest
  go "" "" 0 attributes

/-- `fn parse_subscription` of `migrate.rs` (lines 196-215): `apiName`
and `apiVersion` overwrite, each `environment` occurrence is appended. -/
def parse_subscription (attributes : List (String × String)) : XmlSubscription :=
  let rec go (api_name api_version : String) (env : List String) :
      List (String × String) → XmlSubscription
    | [] => ⟨api_name, api_version, env⟩
    | attr :: rest =>
      if attr.1 = "apiName" then go attr.2 api_version env rest
      else if attr.1 = "apiVersion" then go api_name attr.2 env rest
      else if attr.1 = "environment" then go api_name api_version (env ++ [attr.2]) rest
      else go api_name api_version env rest
  go "" "" [] attributes

/-- One event of the `xml-rs` `EventReader` iterator as consumed by
`parse_xml_file`: a successful `StartElement` (local name, attributes),
`EndElement` (local name), any other successful event (`StartDocument`,
characters, ...), or an `Err` yielded by the reader. -/
inductive XmlEvt where
  | startElement (localName : String) (attributes : List (String × String))
  | endElement (localName : String)
  | other
  | err (msg : String)
deriving Repr, DecidableEq

/-- The mutable state of the `parse_xml_file` loop: the `app`,
`applications` and `subscriptions` locals of `migrate.rs` lines 140-142. -/
structure ParserState where
  app : XmlApplication
  applications : List XmlApplication
  subscriptions : List XmlSubscription
deriving Repr, DecidableEq

/-- Outcome of running Rust code that may `return Err(..)` (`err`) or
`panic!` via `.unwrap()` (`panicked`): the two are distinct — only `err`
is a failure *value* propagated to the caller. -/
inductive RunResult (α : Type) where
  | ok (a : α)
  | err (msg : String)
  | panicked (msg : String)
deriving Repr, DecidableEq

/-- One iteration of the `for event in parser` loop of `parse_xml_file`
(`migrate.rs` lines 144-168):
* `StartElement` named `application`: `app = parse_application(..)`
  (panic propagates); the `subscriptions` accumulator is *not* touched;
* `StartElement` named `subscription`: the parsed subscription is pushed;
* `EndElement` named `application`: `app.apis` is set to the accumulated
  subscriptions, the completed record is pushed onto `applications`, and
  the accumulator is cleared;
* a reader error: `return Err(..)`;
* anything else is ignored. -/
def parseStep (st : ParserState) (e : XmlEvt) : RunResult ParserState :=
  match e with
  | .startElement n attrs =>
    match (if n = "application" then parse_application attrs else some st.app) with
    | none => .panicked "called Result::unwrap on an Err value: ParseIntError"
    | some app1 =>
      let subs1 :=
        if n = "subscription" then st.subscriptions ++ [parse_subscription attrs]
        else st.subscriptions
      .ok ⟨app1, st.applications, subs1⟩
  | .endElement n =>
    if n = "application" then
      .ok ⟨{ st.app with apis := st.subscriptions },
           st.applications ++ [{ st.app with apis := st.subscriptions }], []⟩
    else .ok st
  | .other => .ok st
  | .err msg => .err ("Error: " ++ msg)

/-- Runs the parse loop over a list of events, short-circuiting on the
first returned error or panic. -/
def runSteps (st : ParserState) : List XmlEvt → RunResult ParserState
  | [] => .ok st
  | e :: es =>
    match parseStep st e with
    | .ok st1 => runSteps st1 es
    | .err m => .err m
    | .panicked m => .panicked m

/-- The initial parser state: `XmlApplication::default()` and two empty
vectors (`migrate.rs` lines 140-142). -/
def initialParserState : ParserState := ⟨⟨"", "", [], 0⟩, [], []⟩

/-- `fn parse_xml_file` of `migrate.rs` (lines 138-172), over the event
sequence produced by the underlying XML reader. -/
def parse_xml_file (events : List XmlEvt) : RunResult (List XmlApplication) :=
  match runSteps initialParserState events with
  | .ok st => .ok st.applications
  | .err m => .err m
  | .panicked m => .panicked m

/-- One `app_map.entry(..).or_insert_with(..).apis.extend(..)` step of
`unify_applilcations` (`migrate.rs` lines 244-255), on the map modelled
as an insertion-ordered association list keyed by `name`: a fresh entry
copies the first member's `name`/`token_type`/`token_validity` and
starts from an empty `apis`; every member's `apis` are appended. -/
def insertApp (acc : List XmlApplication) (app : XmlApplication) : List XmlApplication :=
  if acc.any (fun a => a.name == app.name) then
    acc.map (fun a =>
      if a.name == app.name then { a with apis := a.apis ++ app.apis } else a)
  else
    acc ++ [⟨app.name, app.token_type, app.apis, app.token_validity⟩]

/-- The grouping loop of `unify_applilcations` (`migrate.rs` lines
242-255): one merged `XmlApplication` per distinct `name`.  Rust's
`HashMap` iteration order is unspecified; the model lists the groups in
first-seen order. -/
def unifyMerge (applications : List XmlApplication) : List XmlApplication :=
  applications.foldl insertApp []

/-- The per-group projection of `unify_applilcations` (`migrate.rs`
lines 259-340), at the canonical first-occurrence iteration order:
* `name_set`: distinct `api_name`s; `version_map`: per name the distinct
  `api_version`s of that name's subscriptions; `apis`: one `YamlApi` per
  (name, version) with versions nested under names;
* `env_set`: distinct environment entries over all subscriptions;
  `non_prod_envs`/`prod_envs`: `env_set` filtered entry-wise by
  `!= "prod"` / `== "prod"`, each re-collected into a set;
* blocks pushed non-production first, each only if non-empty. -/
def projectMerged (app : XmlApplication) : YamlApiSubscription :=
  let name_set : List String := hsOfList (app.apis.map (·.api_name))
  let versionsOf : String → List String := fun n =>
    hsOfList ((app.apis.filter (fun sub => sub.api_name == n)).map (·.api_version))
  let yaml_apis : List YamlApi :=
    name_set.flatMap (fun n => (versionsOf n).map (fun version => ⟨n, version⟩))
  let env_set : List String := hsOfList (app.apis.map (·.env)).flatten
  let non_prod_envs : List String := hsOfList (env_set.filter (fun env => env != "prod"))
  let prod_envs : List String := hsOfList (env_set.filter (fun env => env == "prod"))
  let yaml_env_non_prod : YamlEnvironment :=
    ⟨NON_PROD_PLANE_URL, non_prod_envs.map (fun env => ⟨env⟩)⟩
  let yaml_env_prod : YamlEnvironment :=
    ⟨PROD_PLANE_URL, prod_envs.map (fun env => ⟨env⟩)⟩
  let environments : List YamlEnvironment :=
    (if non_prod_envs.isEmpty then [] else [yaml_env_non_prod])
      ++ (if prod_envs.isEmpty then [] else [yaml_env_prod])
  ⟨environments, ⟨⟨app.name, app.name ++ "-subscription", yaml_apis⟩⟩⟩

/-- `fn unify_applilcations` of `migrate.rs` (lines 241-343): group by
name, then project each merged record (the bulk flow's projection). -/
def unify_applilcations (applications : List XmlApplication) : List YamlApiSubscription :=
  (unifyMerge applications).map projectMerged

/-- The merged record the merger is specified to produce for a name `n`:
the first group member's `token_type`/`token_validity` and the
concatenation, in group-membership order, of the members' subscription
lists (no deduplication). -/
def mergedFor (applications : List XmlApplication) (n : String) : XmlApplication :=
  let grp := applications.filter (fun a => a.name == n)
  ⟨n, (grp.headD default).token_type, grp.flatMap (·.apis), (grp.headD default).token_validity⟩

/-- No subscription of `app` mixes `"prod"` with a non-`"prod"` entry in
its own environment list. -/
def NoMix (app : XmlApplication) : Prop :=
  ∀ sub ∈ app.apis, "prod" ∈ sub.env → ∀ e ∈ sub.env, e = "prod"

/-- The single-flow projection's non-production name set (the
`non_prod_envs` local of the `From` impl): all env entries of every
subscription having at least one entry `!= "prod"`, deduplicated. -/
def fromNonProdNames (app : XmlApplication) : List String :=
  hsOfList ((app.apis.filter (fun sub => sub.env.any (fun env => env != "prod"))).map (·.env)).flatten

/-- The bulk projection's `env_set` local: distinct env entries over all
subscriptions of the (merged) application. -/
def mergedEnvSet (app : XmlApplication) : List String :=
  hsOfList (app.apis.map (·.env)).flatten

/-- The bulk projection's `non_prod_envs` local: `env_set` filtered
entry-wise to `!= "prod"` and re-collected. -/
def mergedNonProdNames (app : XmlApplication) : List String :=
  hsOfList ((mergedEnvSet app).filter (fun env => env != "prod"))

/-- The single-flow projection's production name set (the `prod_envs`
local of the `From` impl): all env entries of every subscription having
at least one entry `== "prod"`, deduplicated. -/
def fromProdNames (app : XmlApplication) : List String :=
  hsOfList ((app.apis.filter (fun sub => sub.env.any (fun env => env == "prod"))).map (·.env)).flatten

/-- The bulk projection's `prod_envs` local: `env_set` filtered
entry-wise to `== "prod"` and re-collected. -/
def mergedProdNames (app : XmlApplication) : List String :=
  hsOfList ((mergedEnvSet app).filter (fun env => env == "prod"))

/-- The bulk projection's `apis` list: for each distinct `api_name` (in
canonical order), one `YamlApi` per distinct version recorded for that
name. -/
def mergedApis (app : XmlApplication) : List YamlApi :=
  (hsOfList (app.apis.map (·.api_name))).flatMap (fun n =>
    (hsOfList ((app.apis.filter (fun sub => sub.api_name == n)).map (·.api_version))).map
      (fun version => ⟨n, version⟩))

/-- The bulk projection's `name_set` local (distinct `api_name`s), as a
canonical listing. -/
def mergedApiNames (app : XmlApplication) : List String :=
  hsOfList (app.apis.map (·.api_name))

/-- The bulk projection's `version_map` entry for name `n` (the distinct
`api_version`s of that name's subscriptions), as a canonical listing. -/
def mergedVersionsOf (app : XmlApplication) (n : String) : List String :=
  hsOfList ((app.apis.filter (fun sub => sub.api_name == n)).map (·.api_version))

/-- The per-group projection of `unify_applilcations` with the iteration
order of *each* of its `HashSet`s taken as an explicit parameter (every
faithful instantiation permutes its argument):
* `iterNames` — the `for name in name_set` loop (`migrate.rs` line 275);
* `iterVers n` — the `for version in version_map.get(&name)` loop for
  name `n` (line 276; each per-name version set is its own instance);
* `iterNP`/`iterP` — the iterations of the collected
  `non_prod_envs`/`prod_envs` sets (lines 308-314).
The emptiness checks (lines 326, 330) are on the sets themselves, so the
block structure does not depend on the orders.  `projectMerged` is the
canonical instantiation (identity orders). -/
def projectMergedIter (iterNames : List String → List String)
    (iterVers : String → List String → List String)
    (iterNP iterP : List String → List String)
    (app : XmlApplication) : YamlApiSubscription :=
  let name_set : List String := hsOfList (app.apis.map (·.api_name))
  let versionsOf : String → List String := fun n =>
    hsOfList ((app.apis.filter (fun sub => sub.api_name == n)).map (·.api_version))
  let yaml_apis : List YamlApi :=
    (iterNames name_set).flatMap (fun n =>
      (iterVers n (versionsOf n)).map (fun version => ⟨n, version⟩))
  let env_set : List String := hsOfList (app.apis.map (·.env)).flatten
  let non_prod_envs : List String := hsOfList (env_set.filter (fun env => env != "prod"))
  let prod_envs : List String := hsOfList (env_set.filter (fun env => env == "prod"))
  let yaml_env_non_prod : YamlEnvironment :=
    ⟨NON_PROD_PLANE_URL, (iterNP non_prod_envs).map (fun env => ⟨env⟩)⟩
  let yaml_env_prod : YamlEnvironment :=
    ⟨PROD_PLANE_URL, (iterP prod_envs).map (fun env => ⟨env⟩)⟩
  let environments : List YamlEnvironment :=
    (if non_prod_envs.isEmpty then [] else [yaml_env_non_prod])
      ++ (if prod_envs.isEmpty then [] else [yaml_env_prod])
  ⟨environments, ⟨⟨app.name, app.name ++ "-subscription", yaml_apis⟩⟩⟩

/-- The event sequence of one flat, well-formed `<application>` element:
a start tag with the given attributes, one `<subscription .../>` element
per entry of the second component, and the matching end tag. -/
def segmentEvents (seg : List (String × String) × List (List (String × String))) :
    List XmlEvt :=
  XmlEvt.startElement "application" seg.1
    :: (seg.2.flatMap
          (fun s => [XmlEvt.startElement "subscription" s, XmlEvt.endElement "subscription"])
        ++ [XmlEvt.endElement "application"])

/-- The `XmlApplication` record the parser is specified to produce for
one flat `<application>` element: the parsed attributes with the parsed
subscriptions attached. -/
def segmentRecord (seg : List (String × String) × List (List (String × String))) :
    XmlApplication :=
  { (parse_application seg.1).getD default with apis := seg.2.map parse_subscription }

/-- The subscriptions accumulated since the most recent `application`
end tag (starting from `subs`): pushed at each `subscription` start tag,
cleared at each `application` end tag, untouched by anything else —
including `application` *start* tags. -/
def pendingAfter (subs : List XmlSubscription) : List XmlEvt → List XmlSubscription
  | [] => subs
  | e :: es =>
    match e with
    | .startElement n attrs =>
      pendingAfter (if n = "subscription" then subs ++ [parse_subscription attrs] else subs) es
    | .endElement n => pendingAfter (if n = "application" then [] else subs) es
    | .other => pendingAfter subs es
    | .err _ => pendingAfter subs es

/-! ## Helper lemmas about the hash-set model -/

theorem mem_hsInsert {l : List String} {a x : String} :
    x ∈ hsInsert l a ↔ x ∈ l ∨ x = a := by
  by_cases h : a ∈ l <;> simp only [hsInsert, h, if_pos, if_neg, not_false_iff, List.mem_append,
    List.mem_singleton]
  constructor
  · exact Or.inl
  · rintro (hx | rfl) <;> assumption

theorem mem_foldl_hsInsert (l : List String) : ∀ (acc : List String) (x : String),
    x ∈ l.foldl hsInsert acc ↔ x ∈ acc ∨ x ∈ l := by
  induction l with
  | nil => simp
  | cons a t ih =>
    intro acc x
    simp only [List.foldl_cons, ih, mem_hsInsert, List.mem_cons]
    tauto

theorem mem_hsOfList {l : List String} {x : String} : x ∈ hsOfList l ↔ x ∈ l := by
  simp [hsOfList, mem_foldl_hsInsert]

theorem nodup_hsInsert {l : List String} (h : l.Nodup) (a : String) :
    (hsInsert l a).Nodup := by
  by_cases ha : a ∈ l
  · simpa [hsInsert, ha] using h
  · simp [hsInsert, ha, h, List.nodup_append]

theorem nodup_foldl_hsInsert (l : List String) :
    ∀ acc : List String, acc.Nodup → (l.foldl hsInsert acc).Nodup := by
  induction l with
  | nil => exact fun acc h => h
  | cons a t ih => exact fun acc h => ih (hsInsert acc a) (nodup_hsInsert h a)

theorem nodup_hsOfList (l : List String) : (hsOfList l).Nodup :=
  nodup_foldl_hsInsert l [] List.nodup_nil

theorem hsOfList_eq_nil {l : List String} : hsOfList l = [] ↔ l = [] := by
  constructor
  · intro h
    apply List.eq_nil_iff_forall_not_mem.mpr
    intro x hx
    have hm : x ∈ hsOfList l := mem_hsOfList.mpr hx
    rw [h] at hm
    exact absurd hm (List.not_mem_nil x)
  · rintro rfl
    rfl

theorem foldl_hsInsert_of_nodup (l : List String) :
    ∀ acc : List String, (acc ++ l).Nodup → l.foldl hsInsert acc = acc ++ l := by
  induction l with
  | nil => simp
  | cons a t ih =>
    intro acc h
    have ha : a ∉ acc := by
      simp only [List.nodup_append, List.nodup_cons, List.mem_cons, List.Disjoint] at h
      exact fun hx => h.2.2 hx (Or.inl rfl)
    have hstep : hsInsert acc a = acc ++ [a] := by simp [hsInsert, ha]
    have h2 : ((acc ++ [a]) ++ t).Nodup := by
      simpa [List.append_assoc] using h
    simp only [List.foldl_cons, hstep, ih (acc ++ [a]) h2, List.append_assoc,
      List.singleton_append]

theorem hsOfList_of_nodup {l : List String} (h : l.Nodup) : hsOfList l = l := by
  simpa [hsOfList] using foldl_hsInsert_of_nodup l [] (by simpa using h)

theorem nodup_filter_beq {l : List String} {a : String} (h : l.Nodup) (ha : a ∈ l) :
    l.filter (fun x => x == a) = [a] := by
  induction l with
  | nil => cases ha
  | cons b t ih =>
    have hnd := List.nodup_cons.mp h
    by_cases hba : b = a
    · subst hba
      have ht : t.filter (fun x => x == b) = [] := by
        apply List.filter_eq_nil_iff.mpr
        intro x hx
        simp only [beq_iff_eq]
        exact fun hxa => hnd.1 (hxa ▸ hx)
      simp [List.filter_cons, ht]
    · have hat : a ∈ t := by
        rcases List.mem_cons.mp ha with h1 | h2
        · exact absurd h1.symm hba
        · exact h2
      have hstep : (b :: t).filter (fun x => x == a) = t.filter (fun x => x == a) := by
        simp [List.filter_cons, hba]
      rw [hstep]
      exact ih hnd.2 hat

theorem nodup_all_eq_singleton {α : Type} {l : List α} {a : α}
    (h : l.Nodup) (hne : l ≠ []) (hall : ∀ x ∈ l, x = a) : l = [a] := by
  cases l with
  | nil => exact absurd rfl hne
  | cons b t =>
    have hb : b = a := hall b (List.mem_cons_self b t)
    have ht : t = [] := by
      apply List.eq_nil_iff_forall_not_mem.mpr
      intro x hx
      have hx1 : x = a := hall x (List.mem_cons_of_mem b hx)
      exact (List.nodup_cons.mp h).1 (hb ▸ hx1 ▸ hx)
    rw [hb, ht]

/-! ## Helper lemmas about the parse loop -/

theorem runSteps_cons (st : ParserState) (e : XmlEvt) (es : List XmlEvt) :
    runSteps st (e :: es) =
      match parseStep st e with
      | .ok st1 => runSteps st1 es
      | .err m => .err m
      | .panicked m => .panicked m := rfl

theorem parseStep_start_application (st : ParserState) (attrs : List (String × String)) :
    parseStep st (.startElement "application" attrs) =
      match parse_application attrs with
      | some a => .ok ⟨a, st.applications, st.subscriptions⟩
      | none => .panicked "called Result::unwrap on an Err value: ParseIntError" := by
  simp only [parseStep]
  rw [if_neg (show ¬("application" = "subscription") from by decide)]
  cases parse_application attrs <;> rfl

theorem parseStep_start_subscription (st : ParserState) (attrs : List (String × String)) :
    parseStep st (.startElement "subscription" attrs) =
      .ok ⟨st.app, st.applications, st.subscriptions ++ [parse_subscription attrs]⟩ := rfl

theorem parseStep_end_subscription (st : ParserState) :
    parseStep st (.endElement "subscription") = .ok st := rfl

theorem parseStep_end_application (st : ParserState) :
    parseStep st (.endElement "application") =
      .ok ⟨{ st.app with apis := st.subscriptions },
           st.applications ++ [{ st.app with apis := st.subscriptions }], []⟩ := rfl

theorem runSteps_append (l1 l2 : List XmlEvt) : ∀ st : ParserState,
    runSteps st (l1 ++ l2) =
      match runSteps st l1 with
      | .ok st1 => runSteps st1 l2
      | .err m => .err m
      | .panicked m => .panicked m := by
  induction l1 with
  | nil => intro st; rfl
  | cons e es ih =>
    intro st
    rw [List.cons_append, runSteps_cons, runSteps_cons]
    cases parseStep st e with
    | ok st1 => exact ih st1
    | err m => rfl
    | panicked m => rfl

theorem runSteps_subscription_block (subsegs : List (List (String × String))) :
    ∀ st : ParserState,
    runSteps st (subsegs.flatMap
        (fun s => [XmlEvt.startElement "subscription" s, XmlEvt.endElement "subscription"]))
      = .ok ⟨st.app, st.applications, st.subscriptions ++ subsegs.map parse_subscription⟩ := by
  induction subsegs with
  | nil =>
    intro st
    obtain ⟨a, b, c⟩ := st
    simp [runSteps]
  | cons s rest ih =>
    intro st
    simp only [List.flatMap_cons, List.cons_append, List.nil_append]
    rw [runSteps_cons, parseStep_start_subscription]
    simp only
    rw [runSteps_cons, parseStep_end_subscription]
    simp only
    rw [ih]
    simp [List.append_assoc]

theorem runSteps_segment (seg : List (String × String) × List (List (String × String)))
    (a : XmlApplication) (hseg : parse_application seg.1 = some a)
    (app0 : XmlApplication) (accApps : List XmlApplication) :
    runSteps ⟨app0, accApps, []⟩ (segmentEvents seg) =
      .ok ⟨segmentRecord seg, accApps ++ [segmentRecord seg], []⟩ := by
  have hrec : segmentRecord seg = { a with apis := seg.2.map parse_subscription } := by
    simp [segmentRecord, hseg]
  rw [segmentEvents, runSteps_cons, parseStep_start_application, hseg]
  simp only
  rw [runSteps_append]
  rw [runSteps_subscription_block]
  simp only [List.nil_append]
  rw [runSteps_cons, parseStep_end_application]
  simp only [runSteps, hrec]

theorem runSteps_segments (segs : List (List (String × String) × List (List (String × String))))
    (h : ∀ seg ∈ segs, (parse_application seg.1).isSome) :
    ∀ (app0 : XmlApplication) (accApps : List XmlApplication),
    ∃ appF : XmlApplication,
      runSteps ⟨app0, accApps, []⟩ (segs.flatMap segmentEvents) =
        .ok ⟨appF, accApps ++ segs.map segmentRecord, []⟩ := by
  induction segs with
  | nil =>
    intro app0 accApps
    exact ⟨app0, by simp [runSteps]⟩
  | cons seg rest ih =>
    intro app0 accApps
    obtain ⟨a, ha⟩ := Option.isSome_iff_exists.mp (h seg (List.mem_cons_self seg rest))
    obtain ⟨appF, hF⟩ := ih (fun s hs => h s (List.mem_cons_of_mem seg hs))
      (segmentRecord seg) (accApps ++ [segmentRecord seg])
    refine ⟨appF, ?_⟩
    rw [List.flatMap_cons, runSteps_append, runSteps_segment seg a ha app0 accApps]
    simp only [hF, List.map_cons, List.append_assoc, List.singleton_append]

theorem runSteps_subscriptions_eq (events : List XmlEvt) :
    ∀ st st' : ParserState, runSteps st events = .ok st' →
      st'.subscriptions = pendingAfter st.subscriptions events := by
  induction events with
  | nil =>
    intro st st' h
    simp only [runSteps] at h
    cases h
    rfl
  | cons e es ih =>
    intro st st' h
    rw [runSteps_cons] at h
    cases e with
    | startElement n attrs =>
      simp only [parseStep] at h
      cases hpa : (if n = "application" then parse_application attrs else some st.app) with
      | none => rw [hpa] at h; cases h
      | some app1 =>
        rw [hpa] at h
        simp only at h
        have hsub := ih _ _ h
        simpa [pendingAfter] using hsub
    | endElement n =>
      by_cases hn : n = "application"
      · simp only [parseStep, hn, if_pos] at h
        have hsub := ih _ _ h
        simpa [pendingAfter, hn] using hsub
      · simp only [parseStep, hn, if_neg, not_false_iff] at h
        have hsub := ih _ _ h
        simpa [pendingAfter, hn] using hsub
    | other =>
      simp only [parseStep] at h
      have hsub := ih _ _ h
      simpa [pendingAfter] using hsub
    | err m =>
      simp only [parseStep] at h
      cases h

/-! ## Helper lemmas about the merger -/

theorem hsOfList_append_singleton (l : List String) (x : String) :
    hsOfList (l ++ [x]) = hsInsert (hsOfList l) x := by
  simp [hsOfList, List.foldl_append]

theorem mem_name_iff_filter_ne_nil (apps : List XmlApplication) (n : String) :
    n ∈ apps.map (·.name) ↔ apps.filter (fun a => a.name == n) ≠ [] := by
  rw [Ne, List.filter_eq_nil_iff]
  push_neg
  simp only [List.mem_map, beq_iff_eq, decide_eq_true_eq]

theorem mergedFor_name (apps : List XmlApplication) (n : String) :
    (mergedFor apps n).name = n := rfl

theorem mergedFor_append_ne (apps : List XmlApplication) (a : XmlApplication) (n : String)
    (h : ¬(a.name = n)) : mergedFor (apps ++ [a]) n = mergedFor apps n := by
  simp [mergedFor, List.filter_append, h]

theorem mergedFor_append_eq_mem (apps : List XmlApplication) (a : XmlApplication)
    (h : a.name ∈ apps.map (·.name)) :
    mergedFor (apps ++ [a]) a.name =
      { mergedFor apps a.name with apis := (mergedFor apps a.name).apis ++ a.apis } := by
  have hne := (mem_name_iff_filter_ne_nil apps a.name).mp h
  obtain ⟨f, fs, hf⟩ : ∃ f fs, apps.filter (fun x => x.name == a.name) = f :: fs := by
    cases hc : apps.filter (fun x => x.name == a.name) with
    | nil => exact absurd hc hne
    | cons f fs => exact ⟨f, fs, rfl⟩
  simp [mergedFor, List.filter_append, hf]

theorem mergedFor_append_eq_not_mem (apps : List XmlApplication) (a : XmlApplication)
    (h : a.name ∉ apps.map (·.name)) :
    mergedFor (apps ++ [a]) a.name = ⟨a.name, a.token_type, a.apis, a.token_validity⟩ := by
  have hnil : apps.filter (fun x => x.name == a.name) = [] := by
    apply List.filter_eq_nil_iff.mpr
    intro x hx
    simp only [beq_iff_eq, decide_eq_true_eq]
    intro hxa
    exact h (List.mem_map.mpr ⟨x, hx, hxa⟩)
  simp [mergedFor, List.filter_append, hnil]

/-- Closed form of the grouping loop: one merged record per distinct
name in first-seen order, each holding the first member's token fields
and the in-order concatenation of the group members' subscriptions. -/
theorem unifyMerge_closed_form (apps : List XmlApplication) :
    unifyMerge apps = (hsOfList (apps.map (·.name))).map (mergedFor apps) := by
  induction apps using List.reverseRecOn with
  | nil => rfl
  | append_singleton apps a ih =>
    have hstep : unifyMerge (apps ++ [a]) = insertApp (unifyMerge apps) a := by
      simp [unifyMerge, List.foldl_append]
    have hmapa : (apps ++ [a]).map (fun x => x.name) =
        apps.map (fun x => x.name) ++ [a.name] := by simp
    rw [hstep, ih, hmapa, hsOfList_append_singleton]
    by_cases hmem : a.name ∈ apps.map (·.name)
    · have hnames : a.name ∈ hsOfList (apps.map (·.name)) := mem_hsOfList.mpr hmem
      have hins : hsInsert (hsOfList (apps.map (·.name))) a.name =
          hsOfList (apps.map (·.name)) := by simp [hsInsert, hnames]
      have hany : ((hsOfList (apps.map (·.name))).map (mergedFor apps)).any
          (fun x => x.name == a.name) = true := by
        apply List.any_eq_true.mpr
        refine ⟨mergedFor apps a.name, List.mem_map.mpr ⟨a.name, hnames, rfl⟩, ?_⟩
        simp [mergedFor_name]
      rw [hins, insertApp, if_pos hany, List.map_map]
      apply List.map_congr_left
      intro n hn
      by_cases hna : n = a.name
      · subst hna
        simp only [Function.comp_apply, mergedFor_name, beq_self_eq_true, if_pos]
        exact (mergedFor_append_eq_mem apps a hmem).symm
      · simp only [Function.comp_apply, mergedFor_name, beq_iff_eq, hna, if_neg,
          not_false_iff]
        exact (mergedFor_append_ne apps a n (fun he => hna he.symm)).symm
    · have hnames : a.name ∉ hsOfList (apps.map (·.name)) := fun hc => hmem (mem_hsOfList.mp hc)
      have hins : hsInsert (hsOfList (apps.map (·.name))) a.name =
          hsOfList (apps.map (·.name)) ++ [a.name] := by simp [hsInsert, hnames]
      have hany : ((hsOfList (apps.map (·.name))).map (mergedFor apps)).any
          (fun x => x.name == a.name) = false := by
        apply List.any_eq_false.mpr
        intro x hx
        obtain ⟨n, hn, rfl⟩ := List.mem_map.mp hx
        simp only [mergedFor_name, beq_iff_eq]
        intro hna
        exact hnames (hna ▸ hn)
      rw [hins, insertApp]
      rw [if_neg (by rw [hany]; exact Bool.false_ne_true)]
      rw [List.map_append]
      congr 1
      · apply List.map_congr_left
        intro n hn
        have hna : ¬(a.name = n) := fun he => hnames (he ▸ hn)
        exact (mergedFor_append_ne apps a n hna).symm
      · rw [List.map_cons, List.map_nil, mergedFor_append_eq_not_mem apps a hmem]

/-! ## Helper lemmas about the projections -/

theorem fromIter_environments (iterNP iterP : List String → List String)
    (app : XmlApplication) :
    (fromIter iterNP iterP app).environments =
      (if (fromNonProdNames app).isEmpty then []
       else [⟨NON_PROD_PLANE_URL, (iterNP (fromNonProdNames app)).map (fun env => ⟨env⟩)⟩])
      ++ (if (fromProdNames app).isEmpty then []
          else [⟨PROD_PLANE_URL, (iterP (fromProdNames app)).map (fun env => ⟨env⟩)⟩]) := rfl

theorem fromIter_subscription (iterNP iterP : List String → List String)
    (app : XmlApplication) :
    (fromIter iterNP iterP app).subscription =
      ⟨⟨app.name, app.name ++ "-subscription",
        app.apis.map (fun sub => ⟨sub.api_name, sub.api_version⟩)⟩⟩ := rfl

theorem projectMerged_environments (app : XmlApplication) :
    (projectMerged app).environments =
      (if (mergedNonProdNames app).isEmpty then []
       else [⟨NON_PROD_PLANE_URL, (mergedNonProdNames app).map (fun env => ⟨env⟩)⟩])
      ++ (if (mergedProdNames app).isEmpty then []
          else [⟨PROD_PLANE_URL, (mergedProdNames app).map (fun env => ⟨env⟩)⟩]) := rfl

theorem projectMerged_subscription (app : XmlApplication) :
    (projectMerged app).subscription =
      ⟨⟨app.name, app.name ++ "-subscription", mergedApis app⟩⟩ := rfl

theorem projectMergedIter_id (app : XmlApplication) :
    projectMergedIter id (fun _ => id) id id app = projectMerged app := rfl

theorem projectMergedIter_environments (iterNames : List String → List String)
    (iterVers : String → List String → List String)
    (iterNP iterP : List String → List String) (app : XmlApplication) :
    (projectMergedIter iterNames iterVers iterNP iterP app).environments =
      (if (mergedNonProdNames app).isEmpty then []
       else [⟨NON_PROD_PLANE_URL, (iterNP (mergedNonProdNames app)).map (fun env => ⟨env⟩)⟩])
      ++ (if (mergedProdNames app).isEmpty then []
          else [⟨PROD_PLANE_URL, (iterP (mergedProdNames app)).map (fun env => ⟨env⟩)⟩]) := rfl

theorem projectMergedIter_subscription (iterNames : List String → List String)
    (iterVers : String → List String → List String)
    (iterNP iterP : List String → List String) (app : XmlApplication) :
    (projectMergedIter iterNames iterVers iterNP iterP app).subscription =
      ⟨⟨app.name, app.name ++ "-subscription",
        (iterNames (mergedApiNames app)).flatMap (fun n =>
          (iterVers n (mergedVersionsOf app n)).map (fun version => ⟨n, version⟩))⟩⟩ := rfl

/-- Iterating the `name_set` and per-name version sets in any
permutation-faithful orders yields an `apis` list that is a permutation
of the canonical one. -/
theorem perm_iter_apis (app : XmlApplication)
    (t : List String → List String) (tv : String → List String → List String)
    (ht : ∀ l, (t l).Perm l) (htv : ∀ n l, (tv n l).Perm l) :
    ((t (mergedApiNames app)).flatMap (fun n =>
        (tv n (mergedVersionsOf app n)).map (fun version => (⟨n, version⟩ : YamlApi)))).Perm
      (mergedApis app) := by
  have hstep1 : ((t (mergedApiNames app)).flatMap (fun n =>
      (tv n (mergedVersionsOf app n)).map (fun version => (⟨n, version⟩ : YamlApi)))).Perm
      ((mergedApiNames app).flatMap (fun n =>
        (tv n (mergedVersionsOf app n)).map (fun version => (⟨n, version⟩ : YamlApi)))) :=
    (ht (mergedApiNames app)).flatMap_right _
  exact hstep1.trans (List.Perm.flatMap_left _ (fun n _ => (htv n _).map _))

theorem mem_allEnvEntries {app : XmlApplication} {x : String} :
    x ∈ allEnvEntries app ↔ ∃ sub ∈ app.apis, x ∈ sub.env := by
  simp only [allEnvEntries, List.mem_flatten, List.mem_map]
  constructor
  · rintro ⟨l, ⟨sub, hsub, rfl⟩, hx⟩
    exact ⟨sub, hsub, hx⟩
  · rintro ⟨sub, hsub, hx⟩
    exact ⟨sub.env, ⟨sub, hsub, rfl⟩, hx⟩

theorem mergedEnvSet_eq (app : XmlApplication) :
    mergedEnvSet app = hsOfList (allEnvEntries app) := rfl

theorem mem_mergedEnvSet {app : XmlApplication} {x : String} :
    x ∈ mergedEnvSet app ↔ x ∈ allEnvEntries app := by
  rw [mergedEnvSet_eq]
  exact mem_hsOfList

theorem mem_mergedNonProdNames {app : XmlApplication} {x : String} :
    x ∈ mergedNonProdNames app ↔ x ∈ allEnvEntries app ∧ x ≠ "prod" := by
  simp only [mergedNonProdNames, mem_hsOfList, List.mem_filter, bne_iff_ne, ne_eq,
    mem_mergedEnvSet]

theorem nodup_mergedNonProdNames (app : XmlApplication) :
    (mergedNonProdNames app).Nodup := nodup_hsOfList _

theorem mergedProdNames_of_mem (app : XmlApplication)
    (h : "prod" ∈ allEnvEntries app) : mergedProdNames app = ["prod"] := by
  have hmem : "prod" ∈ mergedEnvSet app := mem_mergedEnvSet.mpr h
  have hfil : (mergedEnvSet app).filter (fun env => env == "prod") = ["prod"] :=
    nodup_filter_beq (nodup_hsOfList _) hmem
  rw [mergedProdNames, hfil]
  rfl

theorem mem_fromNonProdNames {app : XmlApplication} {x : String} :
    x ∈ fromNonProdNames app ↔
      ∃ sub ∈ app.apis, (∃ e ∈ sub.env, e ≠ "prod") ∧ x ∈ sub.env := by
  simp only [fromNonProdNames, mem_hsOfList, List.mem_flatten, List.mem_map,
    List.mem_filter, List.any_eq_true, bne_iff_ne, ne_eq]
  constructor
  · rintro ⟨l, ⟨sub, ⟨hsub, he⟩, rfl⟩, hx⟩
    exact ⟨sub, hsub, he, hx⟩
  · rintro ⟨sub, hsub, he, hx⟩
    exact ⟨sub.env, ⟨sub, ⟨hsub, he⟩, rfl⟩, hx⟩

theorem mem_fromProdNames {app : XmlApplication} {x : String} :
    x ∈ fromProdNames app ↔
      ∃ sub ∈ app.apis, (∃ e ∈ sub.env, e = "prod") ∧ x ∈ sub.env := by
  simp only [fromProdNames, mem_hsOfList, List.mem_flatten, List.mem_map,
    List.mem_filter, List.any_eq_true, beq_iff_eq]
  constructor
  · rintro ⟨l, ⟨sub, ⟨hsub, he⟩, rfl⟩, hx⟩
    exact ⟨sub, hsub, he, hx⟩
  · rintro ⟨sub, hsub, he, hx⟩
    exact ⟨sub.env, ⟨sub, ⟨hsub, he⟩, rfl⟩, hx⟩

theorem nodup_fromNonProdNames (app : XmlApplication) :
    (fromNonProdNames app).Nodup := nodup_hsOfList _

theorem nodup_keyed_flatMap (names : List String) (f : String → List YamlApi)
    (hn : names.Nodup) (hf : ∀ n, (f n).Nodup) (hkey : ∀ n x, x ∈ f n → x.name = n) :
    (names.flatMap f).Nodup := by
  induction names with
  | nil => simp
  | cons n rest ih =>
    rw [List.flatMap_cons]
    have hcons := List.nodup_cons.mp hn
    refine List.Nodup.append (hf n) (ih hcons.2) ?_
    intro x hx1 hx2
    obtain ⟨m, hm, hxm⟩ := List.mem_flatMap.mp hx2
    have h1 : x.name = n := hkey n x hx1
    have h2 : x.name = m := hkey m x hxm
    exact hcons.1 (h1 ▸ h2 ▸ hm)

theorem nodup_mergedApis (app : XmlApplication) : (mergedApis app).Nodup := by
  apply nodup_keyed_flatMap _ _ (nodup_hsOfList _)
  · intro n
    apply List.Nodup.map ?_ (nodup_hsOfList _)
    intro a b hab
    exact congrArg YamlApi.version hab
  · intro n x hx
    obtain ⟨v, _, rfl⟩ := List.mem_map.mp hx
    rfl

theorem mem_mergedApis {app : XmlApplication} {n v : String} :
    (⟨n, v⟩ : YamlApi) ∈ mergedApis app ↔
      ∃ sub ∈ app.apis, sub.api_name = n ∧ sub.api_version = v := by
  simp only [mergedApis, List.mem_flatMap, List.mem_map, mem_hsOfList, List.mem_filter,
    beq_iff_eq]
  constructor
  · rintro ⟨m, hm, v1, hv1, heq⟩
    have h1 : m = n := congrArg YamlApi.name heq
    have h2 : v1 = v := congrArg YamlApi.version heq
    subst h1
    subst h2
    obtain ⟨sub, ⟨hsub, hname⟩, hver⟩ := hv1
    exact ⟨sub, hsub, hname, hver⟩
  · rintro ⟨sub, hsub, hname, hver⟩
    refine ⟨n, ⟨sub, hsub, hname⟩, v, ⟨sub, ⟨hsub, hname⟩, hver⟩, rfl⟩

theorem isEmpty_false_of_mem {l : List String} {x : String} (h : x ∈ l) :
    l.isEmpty = false := by
  cases l with
  | nil => cases h
  | cons a t => rfl

theorem fromProdNames_of_noMix (app : XmlApplication) (hm : NoMix app)
    (hprod : "prod" ∈ allEnvEntries app) : fromProdNames app = ["prod"] := by
  obtain ⟨sub, hsub, hp⟩ := mem_allEnvEntries.mp hprod
  have hmem : "prod" ∈ fromProdNames app :=
    mem_fromProdNames.mpr ⟨sub, hsub, ⟨"prod", hp, rfl⟩, hp⟩
  apply nodup_all_eq_singleton (nodup_hsOfList _) (List.ne_nil_of_mem hmem)
  intro x hx
  obtain ⟨sub1, hsub1, ⟨e, he, rfl⟩, hxe⟩ := mem_fromProdNames.mp hx
  exact hm sub1 hsub1 he x hxe

theorem mem_fromNonProdNames_of_noMix (app : XmlApplication) (hm : NoMix app)
    (x : String) :
    x ∈ fromNonProdNames app ↔ x ∈ allEnvEntries app ∧ x ≠ "prod" := by
  rw [mem_fromNonProdNames]
  constructor
  · rintro ⟨sub, hsub, ⟨e, he, hne⟩, hx⟩
    have hnp : "prod" ∉ sub.env := fun hp => hne (hm sub hsub hp e he)
    exact ⟨mem_allEnvEntries.mpr ⟨sub, hsub, hx⟩, fun hxp => hnp (hxp ▸ hx)⟩
  · rintro ⟨hx, hne⟩
    obtain ⟨sub, hsub, hxe⟩ := mem_allEnvEntries.mp hx
    exact ⟨sub, hsub, ⟨x, hxe, hne⟩, hxe⟩

theorem names_of_map_mk (l : List String) :
    ((l.map (fun env => (⟨env⟩ : YamlEnvironmentName))).map (fun b => b.name)) = l := by
  rw [List.map_map]
  exact List.map_id l

theorem map_name_comp_mk (l : List String) :
    List.map ((fun x => YamlEnvironmentName.name x) ∘ fun env => (⟨env⟩ : YamlEnvironmentName)) l
      = l := by
  rw [← List.map_map]
  exact names_of_map_mk l

/-! ## Claim C1 — environment split -/

/-- **C1, counterexample.**  The claim requires, for an application whose
subscriptions' environments include `"prod"` and a non-`"prod"` value,
a non-production block carrying exactly the entries `≠ "prod"` and a
production block carrying exactly `{"prod"}`.  The single-flow
projection (`impl From<XmlApplication>`) filters *subscriptions* (any
entry `!= "prod"`) and then flat-maps *all* of their entries, so a
subscription listing both `"dev"` and `"prod"` puts `"prod"` into the
non-production block and `"dev"` into the production block: both name
sets come out as `{"dev", "prod"}`, contradicting the claim. -/
theorem claim1_counterexample :
    (yamlFromXmlApplication ⟨"A", "", [⟨"x", "v", ["dev", "prod"]⟩], 0⟩).environments.map
        (fun b => (b.control_plane_url, b.environments.map (fun x => x.name)))
      = [(NON_PROD_PLANE_URL, ["dev", "prod"]), (PROD_PLANE_URL, ["dev", "prod"])]
    ∧ "prod" ∈ (["dev", "prod"] : List String) := by
  exact ⟨rfl, by decide⟩

/-- **C1, amended.**  For every application whose subscriptions'
environment entries include `"prod"` and at least one other value, the
*bulk* projection (`unify_applilcations`'s per-record projection)
produces exactly two blocks, non-production first, with the correct
constant URLs, the non-production block carrying exactly the distinct
entries `≠ "prod"` (duplicate-free) and the production block exactly
`["prod"]`.  The *single-flow* projection satisfies the same property
only under the additional hypothesis that no single subscription mixes
`"prod"` with a non-`"prod"` entry (`NoMix`); without it the blocks leak
entries across, as the counterexample shows. -/
theorem claim1_environment_split (app : XmlApplication)
    (hprod : "prod" ∈ allEnvEntries app)
    (hnp : ∃ e ∈ allEnvEntries app, e ≠ "prod") :
    ((projectMerged app).environments.map
        (fun b => (b.control_plane_url, b.environments.map (fun x => x.name)))
      = [(NON_PROD_PLANE_URL, mergedNonProdNames app), (PROD_PLANE_URL, ["prod"])]
     ∧ (mergedNonProdNames app).Nodup
     ∧ (∀ x, x ∈ mergedNonProdNames app ↔ x ∈ allEnvEntries app ∧ x ≠ "prod"))
    ∧ (NoMix app →
       (yamlFromXmlApplication app).environments.map
           (fun b => (b.control_plane_url, b.environments.map (fun x => x.name)))
         = [(NON_PROD_PLANE_URL, fromNonProdNames app), (PROD_PLANE_URL, ["prod"])]
       ∧ (fromNonProdNames app).Nodup
       ∧ (∀ x, x ∈ fromNonProdNames app ↔ x ∈ allEnvEntries app ∧ x ≠ "prod")) := by
  obtain ⟨e, he, hene⟩ := hnp
  constructor
  · have hnpmem : e ∈ mergedNonProdNames app := mem_mergedNonProdNames.mpr ⟨he, hene⟩
    have hnpe : (mergedNonProdNames app).isEmpty = false := isEmpty_false_of_mem hnpmem
    have hprodeq : mergedProdNames app = ["prod"] := mergedProdNames_of_mem app hprod
    refine ⟨?_, nodup_mergedNonProdNames app, fun x => mem_mergedNonProdNames⟩
    rw [projectMerged_environments, hprodeq, hnpe]
    simp [map_name_comp_mk]
  · intro hm
    have hfpn : fromProdNames app = ["prod"] := fromProdNames_of_noMix app hm hprod
    have hfmem : e ∈ fromNonProdNames app :=
      (mem_fromNonProdNames_of_noMix app hm e).mpr ⟨he, hene⟩
    have hfnpe : (fromNonProdNames app).isEmpty = false := isEmpty_false_of_mem hfmem
    refine ⟨?_, nodup_fromNonProdNames app, mem_fromNonProdNames_of_noMix app hm⟩
    rw [yamlFromXmlApplication, fromIter_environments, hfpn, hfnpe]
    simp [map_name_comp_mk]

/-- **C1, witness**: the amended theorem instantiated at a concrete
application with one `"prod"` subscription and one `"dev"` subscription. -/
theorem claim1_witness :
    ("prod" ∈ allEnvEntries ⟨"Orders", "jwt", [⟨"orders-api", "v1", ["prod"]⟩,
        ⟨"orders-api", "v2", ["dev"]⟩], 3600⟩)
    ∧ (∃ e ∈ allEnvEntries ⟨"Orders", "jwt", [⟨"orders-api", "v1", ["prod"]⟩,
        ⟨"orders-api", "v2", ["dev"]⟩], 3600⟩, e ≠ "prod")
    ∧ (((projectMerged ⟨"Orders", "jwt", [⟨"orders-api", "v1", ["prod"]⟩,
          ⟨"orders-api", "v2", ["dev"]⟩], 3600⟩).environments.map
            (fun b => (b.control_plane_url, b.environments.map (fun x => x.name)))
          = [(NON_PROD_PLANE_URL, mergedNonProdNames ⟨"Orders", "jwt",
              [⟨"orders-api", "v1", ["prod"]⟩, ⟨"orders-api", "v2", ["dev"]⟩], 3600⟩),
             (PROD_PLANE_URL, ["prod"])]
         ∧ (mergedNonProdNames ⟨"Orders", "jwt", [⟨"orders-api", "v1", ["prod"]⟩,
              ⟨"orders-api", "v2", ["dev"]⟩], 3600⟩).Nodup
         ∧ (∀ x, x ∈ mergedNonProdNames ⟨"Orders", "jwt", [⟨"orders-api", "v1", ["prod"]⟩,
              ⟨"orders-api", "v2", ["dev"]⟩], 3600⟩ ↔
              x ∈ allEnvEntries ⟨"Orders", "jwt", [⟨"orders-api", "v1", ["prod"]⟩,
                ⟨"orders-api", "v2", ["dev"]⟩], 3600⟩ ∧ x ≠ "prod"))
        ∧ (NoMix ⟨"Orders", "jwt", [⟨"orders-api", "v1", ["prod"]⟩,
            ⟨"orders-api", "v2", ["dev"]⟩], 3600⟩ →
           (yamlFromXmlApplication ⟨"Orders", "jwt", [⟨"orders-api", "v1", ["prod"]⟩,
               ⟨"orders-api", "v2", ["dev"]⟩], 3600⟩).environments.map
               (fun b => (b.control_plane_url, b.environments.map (fun x => x.name)))
             = [(NON_PROD_PLANE_URL, fromNonProdNames ⟨"Orders", "jwt",
                 [⟨"orders-api", "v1", ["prod"]⟩, ⟨"orders-api", "v2", ["dev"]⟩], 3600⟩),
                (PROD_PLANE_URL, ["prod"])]
           ∧ (fromNonProdNames ⟨"Orders", "jwt", [⟨"orders-api", "v1", ["prod"]⟩,
                ⟨"orders-api", "v2", ["dev"]⟩], 3600⟩).Nodup
           ∧ (∀ x, x ∈ fromNonProdNames ⟨"Orders", "jwt", [⟨"orders-api", "v1", ["prod"]⟩,
                ⟨"orders-api", "v2", ["dev"]⟩], 3600⟩ ↔
                x ∈ allEnvEntries ⟨"Orders", "jwt", [⟨"orders-api", "v1", ["prod"]⟩,
                  ⟨"orders-api", "v2", ["dev"]⟩], 3600⟩ ∧ x ≠ "prod"))) :=
  ⟨by decide, by decide, claim1_environment_split _ (by decide) (by decide)⟩

/-! ## Claim C2 — apis deduplication -/

/-- **C2, counterexample.**  The claim asserts the `apis` dedup holds for
the single-flow projection as well.  The single-flow projection maps
each subscription entry to one `YamlApi` with no deduplication
(`migrate.rs` lines 112-119): an application with two identical
subscription entries yields a duplicated `apis` list. -/
theorem claim2_counterexample :
    (yamlFromXmlApplication
        ⟨"A", "", [⟨"x", "v1", ["dev"]⟩, ⟨"x", "v1", ["dev"]⟩], 0⟩).subscription.application.apis
      = [⟨"x", "v1"⟩, ⟨"x", "v1"⟩]
    ∧ ¬ ([(⟨"x", "v1"⟩ : YamlApi), ⟨"x", "v1"⟩]).Nodup :=
  ⟨rfl, by decide⟩

/-- **C2, amended.**  The *bulk*-flow projection's `apis` list contains
exactly one `ApiRef` per distinct `(apiName, apiVersion)` pair appearing
across all subscriptions, with no duplicate entries, regardless of how
many subscription entries referenced the pair.  The *single*-flow
projection performs no deduplication: it emits one `ApiRef` per
subscription entry, in input order (so a pair referenced `k` times
appears `k` times). -/
theorem claim2_apis_dedup (app : XmlApplication) :
    ((projectMerged app).subscription.application.apis.Nodup
     ∧ ∀ n v, (⟨n, v⟩ : YamlApi) ∈ (projectMerged app).subscription.application.apis ↔
         ∃ sub ∈ app.apis, sub.api_name = n ∧ sub.api_version = v)
    ∧ (yamlFromXmlApplication app).subscription.application.apis
        = app.apis.map (fun sub => ⟨sub.api_name, sub.api_version⟩) :=
  ⟨⟨nodup_mergedApis app, fun _ _ => mem_mergedApis⟩, rfl⟩

/-! ## Claim C3 — non-integer tokenValidity -/

/-- **C3.**  On an `application` element whose `tokenValidity` attribute
is not a base-10 integer, `parse_application` calls
`attr.value.parse().unwrap()` (`migrate.rs` line 183), which *panics*;
no error value is returned to the caller, contradicting the claim (and
§7 of the specification, which classifies this as an `InvalidAttribute`
parse error).  The embedding records the panic as `RunResult.panicked`,
distinct from the returned-error constructor `RunResult.err`. -/
theorem claim3_token_validity_panics :
    parse_xml_file [XmlEvt.startElement "application" [("tokenValidity", "abc")]]
      = .panicked "called Result::unwrap on an Err value: ParseIntError" := by
  decide

/-! ## Claim C4 — accumulator at an application start tag -/

/-- **C4, counterexample.**  The parser does *not* reset the pending
subscription accumulator at an `application` start tag (`migrate.rs`
lines 149-151 only reassign `app`); it is cleared only at end tags.  In
the event sequence start `application` "A" · start `subscription` "x" ·
start `application` "B" · end `application`, the accumulator still holds
the subscription parsed in A's scope when the parser encounters B's
start tag, and B's completed record carries it: the parse result is one
record, named "B", owning the subscription "x" from the previous
record's scope. -/
theorem claim4_counterexample :
    parse_xml_file
        [XmlEvt.startElement "application" [("name", "A")],
         XmlEvt.startElement "subscription" [("apiName", "x")],
         XmlEvt.startElement "application" [("name", "B")],
         XmlEvt.endElement "application"]
      = .ok [⟨"B", "", [⟨"x", "", []⟩], 0⟩] := by
  decide

/-- **C4, amended.**  The accumulator is cleared at `application` *end*
tags only, never at start tags: after any successfully parsed event
prefix, the accumulator holds exactly the subscriptions parsed since the
most recent `application` end tag (`pendingAfter`).  Consequently it is
empty at an `application` start tag precisely when no `subscription`
start tag occurred since the last `application` end tag — which is the
case for flat, properly nested input, but not in general. -/
theorem claim4_accumulator (events : List XmlEvt) (st : ParserState)
    (h : runSteps initialParserState events = .ok st) :
    st.subscriptions = pendingAfter [] events :=
  runSteps_subscriptions_eq events initialParserState st h

/-- **C4, witness**: the amended theorem instantiated at a one-event
sequence containing a single subscription start tag. -/
theorem claim4_witness :
    runSteps initialParserState [XmlEvt.startElement "subscription" []]
        = .ok ⟨⟨"", "", [], 0⟩, [], [⟨"", "", []⟩]⟩
    ∧ (⟨⟨"", "", [], 0⟩, [], [⟨"", "", []⟩]⟩ : ParserState).subscriptions
        = pendingAfter [] [XmlEvt.startElement "subscription" []] :=
  ⟨by decide, claim4_accumulator _ _ (by decide)⟩

/-! ## Claim C5 — merge grouping -/

/-- **C5.**  For every ordered sequence of `XmlApplication` records, the
merger produces exactly one merged record per distinct exact
(case-sensitive, untrimmed) name — the record list is indexed by the
distinct names, in first-seen order, without repetition — and the record
for name `n` is `mergedFor apps n`: it carries the `token_type` and
`token_validity` of the *first* group member and the concatenation, in
group-membership order, of the members' subscription lists in their own
internal order, with no deduplication. -/
theorem claim5_merge_grouping (apps : List XmlApplication) :
    unifyMerge apps = (hsOfList (apps.map (·.name))).map (mergedFor apps)
    ∧ ((unifyMerge apps).map (·.name)).Nodup := by
  refine ⟨unifyMerge_closed_form apps, ?_⟩
  rw [unifyMerge_closed_form apps, List.map_map]
  have hid : ((fun x => XmlApplication.name x) ∘ mergedFor apps) = fun n => n := by
    funext n
    exact mergedFor_name apps n
  rw [hid]
  have hmap : (hsOfList (apps.map (·.name))).map (fun n => n)
      = hsOfList (apps.map (·.name)) := List.map_id _
  rw [hmap]
  exact nodup_hsOfList _

/-! ## Claim C6 — merge then project is a homomorphism -/

/-- **C6.**  Merging two same-named applications with disjoint
subscription lists and projecting (the bulk flow) yields exactly the
output of the bulk flow applied to a single application that already
carries the concatenation of both subscription lists. -/
theorem claim6_merge_homomorphism (a1 a2 : XmlApplication)
    (hname : a2.name = a1.name)
    (hdisj : ∀ s ∈ a1.apis, s ∉ a2.apis) :
    unify_applilcations [a1, a2] =
      unify_applilcations [⟨a1.name, a1.token_type, a1.apis ++ a2.apis, a1.token_validity⟩] := by
  simp [unify_applilcations, unifyMerge, insertApp, hname]

/-- **C6, witness**: two same-named applications with disjoint
subscription lists. -/
theorem claim6_witness :
    ((⟨"Billing", "uu", [⟨"s", "v2", ["prod"]⟩], 2⟩ : XmlApplication).name
        = (⟨"Billing", "tt", [⟨"s", "v1", ["dev"]⟩], 1⟩ : XmlApplication).name)
    ∧ (∀ s ∈ (⟨"Billing", "tt", [⟨"s", "v1", ["dev"]⟩], 1⟩ : XmlApplication).apis,
        s ∉ (⟨"Billing", "uu", [⟨"s", "v2", ["prod"]⟩], 2⟩ : XmlApplication).apis)
    ∧ unify_applilcations [⟨"Billing", "tt", [⟨"s", "v1", ["dev"]⟩], 1⟩,
        ⟨"Billing", "uu", [⟨"s", "v2", ["prod"]⟩], 2⟩] =
      unify_applilcations [⟨"Billing", "tt",
        [⟨"s", "v1", ["dev"]⟩] ++ [⟨"s", "v2", ["prod"]⟩], 1⟩] :=
  ⟨by decide, by decide, claim6_merge_homomorphism _ _ (by decide) (by decide)⟩

/-! ## Claim C7 — end tag closes the record, document order -/

/-- **C7.**  Over any flat, well-formed sequence of `application`
elements, each `application` end tag attaches the subscriptions
accumulated since the start tag to the record, appends the completed
record to the result, and clears the accumulator: the parse yields
exactly one record per element, in input document order, each carrying
its own subscriptions (`segmentRecord`).  (The hypothesis rules out the
`tokenValidity` panic of C3.) -/
theorem claim7_end_tag_closes_record
    (segs : List (List (String × String) × List (List (String × String))))
    (h : ∀ seg ∈ segs, (parse_application seg.1).isSome) :
    parse_xml_file (segs.flatMap segmentEvents) = .ok (segs.map segmentRecord) := by
  obtain ⟨appF, hF⟩ := runSteps_segments segs h ⟨"", "", [], 0⟩ []
  rw [parse_xml_file, show initialParserState = ⟨⟨"", "", [], 0⟩, [], []⟩ from rfl, hF]
  simp

/-- **C7, witness**: one application element with one subscription. -/
theorem claim7_witness :
    (∀ seg ∈ [(([("name", "A")], [[("apiName", "x")]]) :
        List (String × String) × List (List (String × String)))],
      (parse_application seg.1).isSome)
    ∧ parse_xml_file
        (([(([("name", "A")], [[("apiName", "x")]]) :
            List (String × String) × List (List (String × String)))]).flatMap segmentEvents)
      = .ok ([(([("name", "A")], [[("apiName", "x")]]) :
            List (String × String) × List (List (String × String)))].map segmentRecord) :=
  ⟨by decide, claim7_end_tag_closes_record _ (by decide)⟩

/-! ## Claim C8 — projection determinism -/

/-- **C8, counterexample.**  The projection iterates freshly collected
`HashSet`s whose iteration order is not a function of the input record
(each Rust `HashSet` instance draws its own random hash state), so two
runs of the projection on the same record need not produce
byte-identical documents.  With the set listing iterated in reverse
order — a faithful possible iteration order, being a permutation of the
listing (`List.reverse_perm`) — the output differs from the canonical
run on the same record. -/
theorem claim8_counterexample :
    fromIter List.reverse List.reverse ⟨"A", "", [⟨"x", "v", ["dev", "test"]⟩], 0⟩
      ≠ fromIter id id ⟨"A", "", [⟨"x", "v", ["dev", "test"]⟩], 0⟩
    ∧ (List.reverse (["dev", "test"] : List String)).Perm ["dev", "test"] :=
  ⟨by decide, List.reverse_perm _⟩

/-- **C8, amended.**  Each projection is deterministic in everything
except the iteration order of its freshly collected hash sets.  Any two
runs of the *single-flow* projection on the same record — each iterating
its two environment sets in an arbitrary permutation-faithful order —
agree on the number and order of the EnvironmentBlocks, their
`controlPlaneUrl`s, the *set* of names in each block (the name lists are
permutations of one another), and the entire `subscriptions` section
including `apis`, which does not pass through a hash set in that flow.
Any two runs of the *bulk* projection on the same (merged) record —
each additionally iterating `name_set` and the per-name version sets in
arbitrary faithful orders — agree on the same environment facts, on the
application `name` and `description`, and on the `apis` list as a set:
the two `apis` lists are permutations of one another (their order passes
through the `name_set` and per-name version `HashSet`s of `migrate.rs`
lines 275-283, so it is not fixed either).  Byte-identical output
additionally requires both runs to iterate every hash set in the same
order, which the code does not pin down. -/
theorem claim8_deterministic_up_to_set_order
    (app : XmlApplication)
    (fNP fP gNP gP fMNP fMP gMNP gMP fN gN : List String → List String)
    (fV gV : String → List String → List String)
    (hfNP : ∀ l, (fNP l).Perm l) (hfP : ∀ l, (fP l).Perm l)
    (hgNP : ∀ l, (gNP l).Perm l) (hgP : ∀ l, (gP l).Perm l)
    (hfMNP : ∀ l, (fMNP l).Perm l) (hfMP : ∀ l, (fMP l).Perm l)
    (hgMNP : ∀ l, (gMNP l).Perm l) (hgMP : ∀ l, (gMP l).Perm l)
    (hfN : ∀ l, (fN l).Perm l) (hgN : ∀ l, (gN l).Perm l)
    (hfV : ∀ n l, (fV n l).Perm l) (hgV : ∀ n l, (gV n l).Perm l) :
    ((fromIter fNP fP app).environments.map (fun b => b.control_plane_url)
        = (fromIter gNP gP app).environments.map (fun b => b.control_plane_url)
     ∧ List.Forall₂ (fun b1 b2 => (b1.environments.map (fun x => x.name)).Perm
           (b2.environments.map (fun x => x.name)))
         (fromIter fNP fP app).environments (fromIter gNP gP app).environments
     ∧ (fromIter fNP fP app).subscription = (fromIter gNP gP app).subscription)
    ∧ ((projectMergedIter fN fV fMNP fMP app).environments.map (fun b => b.control_plane_url)
        = (projectMergedIter gN gV gMNP gMP app).environments.map (fun b => b.control_plane_url)
     ∧ List.Forall₂ (fun b1 b2 => (b1.environments.map (fun x => x.name)).Perm
           (b2.environments.map (fun x => x.name)))
         (projectMergedIter fN fV fMNP fMP app).environments
         (projectMergedIter gN gV gMNP gMP app).environments
     ∧ (projectMergedIter fN fV fMNP fMP app).subscription.application.name
         = (projectMergedIter gN gV gMNP gMP app).subscription.application.name
     ∧ (projectMergedIter fN fV fMNP fMP app).subscription.application.description
         = (projectMergedIter gN gV gMNP gMP app).subscription.application.description
     ∧ ((projectMergedIter fN fV fMNP fMP app).subscription.application.apis).Perm
         ((projectMergedIter gN gV gMNP gMP app).subscription.application.apis)) := by
  have hperm : ∀ (f g : List String → List String), (∀ l, (f l).Perm l) →
      (∀ l, (g l).Perm l) → ∀ l : List String,
      (((f l).map (fun env => (⟨env⟩ : YamlEnvironmentName))).map (fun x => x.name)).Perm
        (((g l).map (fun env => (⟨env⟩ : YamlEnvironmentName))).map (fun x => x.name)) := by
    intro f g hf hg l
    rw [names_of_map_mk, names_of_map_mk]
    exact (hf l).trans (hg l).symm
  refine ⟨⟨?_, ?_, rfl⟩, ⟨?_, ?_, rfl, rfl, ?_⟩⟩
  · rw [fromIter_environments, fromIter_environments]
    cases hE1 : (fromNonProdNames app).isEmpty <;>
      cases hE2 : (fromProdNames app).isEmpty <;> simp
  · rw [fromIter_environments, fromIter_environments]
    cases hE1 : (fromNonProdNames app).isEmpty <;>
      cases hE2 : (fromProdNames app).isEmpty <;>
      simp only [Bool.false_eq_true, if_false, if_true, List.nil_append, List.append_nil,
        List.singleton_append, List.cons_append]
    · exact List.Forall₂.cons (hperm fNP gNP hfNP hgNP _)
        (List.Forall₂.cons (hperm fP gP hfP hgP _) List.Forall₂.nil)
    · exact List.Forall₂.cons (hperm fNP gNP hfNP hgNP _) List.Forall₂.nil
    · exact List.Forall₂.cons (hperm fP gP hfP hgP _) List.Forall₂.nil
    · exact List.Forall₂.nil
  · rw [projectMergedIter_environments, projectMergedIter_environments]
    cases hE1 : (mergedNonProdNames app).isEmpty <;>
      cases hE2 : (mergedProdNames app).isEmpty <;> simp
  · rw [projectMergedIter_environments, projectMergedIter_environments]
    cases hE1 : (mergedNonProdNames app).isEmpty <;>
      cases hE2 : (mergedProdNames app).isEmpty <;>
      simp only [Bool.false_eq_true, if_false, if_true, List.nil_append, List.append_nil,
        List.singleton_append, List.cons_append]
    · exact List.Forall₂.cons (hperm fMNP gMNP hfMNP hgMNP _)
        (List.Forall₂.cons (hperm fMP gMP hfMP hgMP _) List.Forall₂.nil)
    · exact List.Forall₂.cons (hperm fMNP gMNP hfMNP hgMNP _) List.Forall₂.nil
    · exact List.Forall₂.cons (hperm fMP gMP hfMP hgMP _) List.Forall₂.nil
    · exact List.Forall₂.nil
  · exact (perm_iter_apis app fN fV hfN hfV).trans
      (perm_iter_apis app gN gV hgN hgV).symm

/-- **C8, witness**: the amended theorem at a concrete record with the
canonical iteration order on both runs of both flows. -/
theorem claim8_witness :
    ((fromIter id id ⟨"A", "", [⟨"x", "v", ["dev", "prod"]⟩], 0⟩).environments.map
          (fun b => b.control_plane_url)
        = (fromIter id id ⟨"A", "", [⟨"x", "v", ["dev", "prod"]⟩], 0⟩).environments.map
          (fun b => b.control_plane_url)
     ∧ List.Forall₂ (fun b1 b2 => (b1.environments.map (fun x => x.name)).Perm
           (b2.environments.map (fun x => x.name)))
         (fromIter id id ⟨"A", "", [⟨"x", "v", ["dev", "prod"]⟩], 0⟩).environments
         (fromIter id id ⟨"A", "", [⟨"x", "v", ["dev", "prod"]⟩], 0⟩).environments
     ∧ (fromIter id id ⟨"A", "", [⟨"x", "v", ["dev", "prod"]⟩], 0⟩).subscription
         = (fromIter id id ⟨"A", "", [⟨"x", "v", ["dev", "prod"]⟩], 0⟩).subscription)
    ∧ ((projectMergedIter id (fun _ => id) id id
            ⟨"A", "", [⟨"x", "v", ["dev", "prod"]⟩], 0⟩).environments.map
          (fun b => b.control_plane_url)
        = (projectMergedIter id (fun _ => id) id id
            ⟨"A", "", [⟨"x", "v", ["dev", "prod"]⟩], 0⟩).environments.map
          (fun b => b.control_plane_url)
     ∧ List.Forall₂ (fun b1 b2 => (b1.environments.map (fun x => x.name)).Perm
           (b2.environments.map (fun x => x.name)))
         (projectMergedIter id (fun _ => id) id id
           ⟨"A", "", [⟨"x", "v", ["dev", "prod"]⟩], 0⟩).environments
         (projectMergedIter id (fun _ => id) id id
           ⟨"A", "", [⟨"x", "v", ["dev", "prod"]⟩], 0⟩).environments
     ∧ (projectMergedIter id (fun _ => id) id id
           ⟨"A", "", [⟨"x", "v", ["dev", "prod"]⟩], 0⟩).subscription.application.name
         = (projectMergedIter id (fun _ => id) id id
           ⟨"A", "", [⟨"x", "v", ["dev", "prod"]⟩], 0⟩).subscription.application.name
     ∧ (projectMergedIter id (fun _ => id) id id
           ⟨"A", "", [⟨"x", "v", ["dev", "prod"]⟩], 0⟩).subscription.application.description
         = (projectMergedIter id (fun _ => id) id id
           ⟨"A", "", [⟨"x", "v", ["dev", "prod"]⟩], 0⟩).subscription.application.description
     ∧ ((projectMergedIter id (fun _ => id) id id
           ⟨"A", "", [⟨"x", "v", ["dev", "prod"]⟩], 0⟩).subscription.application.apis).Perm
         ((projectMergedIter id (fun _ => id) id id
           ⟨"A", "", [⟨"x", "v", ["dev", "prod"]⟩], 0⟩).subscription.application.apis)) :=
  claim8_deterministic_up_to_set_order _ id id id id id id id id id id
    (fun _ => id) (fun _ => id)
    (fun l => List.Perm.refl l) (fun l => List.Perm.refl l)
    (fun l => List.Perm.refl l) (fun l => List.Perm.refl l)
    (fun l => List.Perm.refl l) (fun l => List.Perm.refl l)
    (fun l => List.Perm.refl l) (fun l => List.Perm.refl l)
    (fun l => List.Perm.refl l) (fun l => List.Perm.refl l)
    (fun _ l => List.Perm.refl l) (fun _ l => List.Perm.refl l)

/-! ## Claim C9 — token fields have no influence -/

/-- **C9.**  Changing an application's `token_type`/`token_validity`
fields arbitrarily changes neither the single-flow projection's output
nor the bulk flow's (merge followed by projection): the two token fields
influence no part of either output document. -/
theorem claim9_token_fields_no_influence (app : XmlApplication) (tt : String) (tv : Int) :
    yamlFromXmlApplication { app with token_type := tt, token_validity := tv }
        = yamlFromXmlApplication app
    ∧ unify_applilcations [{ app with token_type := tt, token_validity := tv }]
        = unify_applilcations [app] :=
  ⟨rfl, rfl⟩

/-! ## Claim C10 — empty environment strings are not filtered -/

/-- **C10.**  An environment entry equal to the empty string is treated
like any other non-`"prod"` string: in both the single-flow and the bulk
projection it makes the non-production block present (first in the
output) and appears in that block's name list; and the attribute parser
stores an empty `environment` attribute value unchanged — no filtering
of empty environment strings occurs anywhere in the pipeline. -/
theorem claim10_empty_env_kept (app : XmlApplication) (sub : XmlSubscription)
    (n v : String) (hsub : sub ∈ app.apis) (hempty : "" ∈ sub.env) :
    (∃ b, (yamlFromXmlApplication app).environments.head? = some b
        ∧ b.control_plane_url = NON_PROD_PLANE_URL
        ∧ (⟨""⟩ : YamlEnvironmentName) ∈ b.environments)
    ∧ (∃ b, (projectMerged app).environments.head? = some b
        ∧ b.control_plane_url = NON_PROD_PLANE_URL
        ∧ (⟨""⟩ : YamlEnvironmentName) ∈ b.environments)
    ∧ parse_subscription [("apiName", n), ("apiVersion", v), ("environment", "")]
        = ⟨n, v, [""]⟩ := by
  have hne : ("" : String) ≠ "prod" := by decide
  refine ⟨?_, ?_, rfl⟩
  · have hmem : "" ∈ fromNonProdNames app :=
      mem_fromNonProdNames.mpr ⟨sub, hsub, ⟨"", hempty, hne⟩, hempty⟩
    have hie : (fromNonProdNames app).isEmpty = false := isEmpty_false_of_mem hmem
    refine ⟨⟨NON_PROD_PLANE_URL, (id (fromNonProdNames app)).map (fun env => ⟨env⟩)⟩,
      ?_, rfl, ?_⟩
    · rw [yamlFromXmlApplication, fromIter_environments, hie]
      simp
    · exact List.mem_map.mpr ⟨"", hmem, rfl⟩
  · have hmem : "" ∈ mergedNonProdNames app :=
      mem_mergedNonProdNames.mpr ⟨mem_allEnvEntries.mpr ⟨sub, hsub, hempty⟩, hne⟩
    have hie : (mergedNonProdNames app).isEmpty = false := isEmpty_false_of_mem hmem
    refine ⟨⟨NON_PROD_PLANE_URL, (mergedNonProdNames app).map (fun env => ⟨env⟩)⟩,
      ?_, rfl, ?_⟩
    · rw [projectMerged_environments, hie]
      simp
    · exact List.mem_map.mpr ⟨"", hmem, rfl⟩

/-- **C10, witness**: a one-subscription application whose only
environment entry is the empty string. -/
theorem claim10_witness :
    ((⟨"x", "v", [""]⟩ : XmlSubscription) ∈
        (⟨"A", "", [⟨"x", "v", [""]⟩], 0⟩ : XmlApplication).apis)
    ∧ ("" ∈ (⟨"x", "v", [""]⟩ : XmlSubscription).env)
    ∧ ((∃ b, (yamlFromXmlApplication ⟨"A", "", [⟨"x", "v", [""]⟩], 0⟩).environments.head?
            = some b
          ∧ b.control_plane_url = NON_PROD_PLANE_URL
          ∧ (⟨""⟩ : YamlEnvironmentName) ∈ b.environments)
      ∧ (∃ b, (projectMerged ⟨"A", "", [⟨"x", "v", [""]⟩], 0⟩).environments.head? = some b
          ∧ b.control_plane_url = NON_PROD_PLANE_URL
          ∧ (⟨""⟩ : YamlEnvironmentName) ∈ b.environments)
      ∧ parse_subscription [("apiName", "x"), ("apiVersion", "v"), ("environment", "")]
          = ⟨"x", "v", [""]⟩) :=
  ⟨by decide, by decide,
    claim10_empty_env_kept ⟨"A", "", [⟨"x", "v", [""]⟩], 0⟩ ⟨"x", "v", [""]⟩ "x" "v"
      (by decide) (by decide)⟩
